import Mathlib

/-!
Verification of the three utilities in this repository:
(a) the e2e test-run orchestrator (packages/client/tests/e2e/_utils/run.ts),
(b) the NFT annotation emitter
    (packages/client/src/generation/utils/buildNFTAnnotations.ts),
(c) the generated placeholder client module
    (packages/cli/prisma-client/scripts/default-index.js).
Each TypeScript/JavaScript function is shallowly embedded as an executable Lean
definition; ambient effects (environment variables, the filesystem, child
processes) are passed explicitly.
-/

set_option maxRecDepth 8000

namespace Prisma

/-! ## Generic list/string helpers -/

/-- Proposition: the character list `needle` occurs contiguously inside `hay`. -/
def ListSub (needle hay : List Char) : Prop :=
  ∃ pre post : List Char, pre ++ needle ++ post = hay

/-- Executable check that `needle` occurs contiguously inside `hay`
(the semantics of JavaScript's `String.prototype.includes`). -/
def containsSub (hay needle : List Char) : Bool :=
  hay.tails.any (fun t => needle.isPrefixOf t)

/-- `SubstrOf needle hay`: the string `needle` is a contiguous substring of `hay`. -/
def SubstrOf (needle hay : String) : Prop :=
  ListSub needle.data hay.data

/-- JavaScript `Array.prototype.join('\n')`. -/
def joinNl : List String → String
  | [] => ""
  | [s] => s
  | s :: t :: rest => s ++ "\n" ++ joinNl (t :: rest)

/-! ## A model of Node's `path.posix.join` (used via `path.join` in the sources) -/

/-- Split a character list on `'/'` (the segment decomposition used by
Node's path normalization). -/
def splitSlash : List Char → List (List Char)
  | [] => [[]]
  | c :: rest =>
    if c = '/' then [] :: splitSlash rest
    else
      match splitSlash rest with
      | [] => [[c]]
      | seg :: segs => (c :: seg) :: segs

/-- One step of Node's `normalizeString`: process one segment against the
stack of kept segments (stored in reverse). `allow` is `allowAboveRoot`. -/
def normStep (allow : Bool) (stack : List (List Char)) (seg : List Char) : List (List Char) :=
  if seg = [] ∨ seg = ['.'] then stack
  else if seg = ['.', '.'] then
    match stack with
    | top :: rest => if top = ['.', '.'] then (if allow then seg :: stack else stack) else rest
    | [] => if allow then [seg] else []
  else seg :: stack

/-- Join segments with `'/'` (Node's reconstruction of the normalized path). -/
def joinWith (sep : List Char) : List (List Char) → List Char
  | [] => []
  | [x] => x
  | x :: y :: xs => x ++ sep ++ joinWith sep (y :: xs)

def firstIsSlash : List Char → Bool
  | [] => false
  | c :: _ => decide (c = '/')

def lastIsSlash : List Char → Bool
  | [] => false
  | [c] => decide (c = '/')
  | _ :: c :: rest => lastIsSlash (c :: rest)

/-- Node's `path.posix.normalize`. -/
def posixNormalize (s : String) : String :=
  if s.data = [] then "."
  else
    let isAbs := firstIsSlash s.data
    let trail := lastIsSlash s.data
    let core := joinWith ['/'] (((splitSlash s.data).foldl (normStep (!isAbs)) []).reverse)
    if core = [] then
      if isAbs then "/" else if trail then "./" else "."
    else
      let core2 := if trail then core ++ ['/'] else core
      if isAbs then ⟨'/' :: core2⟩ else ⟨core2⟩

/-- Node's `path.posix.join` restricted to two arguments, the only arity the
sources use. -/
def posixJoin2 (a b : String) : String :=
  if a = "" ∧ b = "" then "."
  else if a = "" then posixNormalize b
  else if b = "" then posixNormalize a
  else posixNormalize (a ++ "/" ++ b)

/-! ## A model of `JSON.stringify` on strings -/

def hexDigitChar (n : Nat) : Char :=
  if n < 10 then Char.ofNat (48 + n) else Char.ofNat (87 + n)

/-- The escape sequence `JSON.stringify` emits for one character. -/
def jsonEscapeChar (c : Char) : List Char :=
  if c = '"' then ['\\', '"']
  else if c = '\\' then ['\\', '\\']
  else if c = '\x08' then ['\\', 'b']
  else if c = '\x0c' then ['\\', 'f']
  else if c = '\n' then ['\\', 'n']
  else if c = '\r' then ['\\', 'r']
  else if c = '\t' then ['\\', 't']
  else if c.toNat < 32 then ['\\', 'u', '0', '0', hexDigitChar (c.toNat / 16), hexDigitChar (c.toNat % 16)]
  else [c]

/-- `JSON.stringify` applied to a string value. -/
def jsonStringify (s : String) : String :=
  ⟨'"' :: (s.data.map jsonEscapeChar).flatten ++ ['"']⟩

/-- A character that JSON-escaping leaves alone and that is not a path
separator. Every platform identifier of the source's finite `Platform` union
consists of such characters (ASCII letters, digits, dots and dashes). -/
def plainChar (c : Char) : Bool :=
  decide (c ≠ '"') && decide (c ≠ '\\') && decide (c ≠ '/') && decide (32 ≤ c.toNat)

def plainIdent (s : String) : Bool := s.data.all plainChar

/-! ## The NFT annotation emitter
(src/packages/client/src/generation/utils/buildNFTAnnotations.ts)

The ambient process environment (read through `process.env.NETLIFY`) is passed
explicitly as a map `String → Option String`.  The engine-type enum and its
resolver live in the external package "@prisma/internals"; the emitter is
embedded over the resolved engine type, as the spec describes the input
("engine-type enum"). -/

/-- Truthiness of a `process.env` entry in JavaScript: defined and non-empty. -/
def envTruthy : Option String → Bool
  | some s => !s.isEmpty
  | none => false

/-- The client engine type enum (`ClientEngineType`, from "@prisma/internals",
absent from these sources).  Modelled from the spec: engine types select
"two filename conventions, or no asset if the engine type needs none", so
beside `Library` and `Binary` we model one no-asset variant, `Other` (the
fall-through branch of `getQueryEngineFilename` in the source). -/
inductive ClientEngineType where
  | Library
  | Binary
  | Other
deriving DecidableEq

/-- Modelled from the spec: `getNodeAPIName` comes from the external package
"@prisma/get-platform", absent from these sources.  The spec says the library
engine type uses a library-style platform-specific filename convention; we
model it as the native-library filename built from the platform identifier. -/
def getNodeAPIName (platform : String) : String :=
  "libquery_engine-" ++ platform ++ ".so.node"

/-- `getQueryEngineFilename` (lines 52-62 of buildNFTAnnotations.ts). -/
def getQueryEngineFilename (engineType : ClientEngineType) (platform : String) :
    Option String :=
  match engineType with
  | ClientEngineType.Library => some (getNodeAPIName platform)
  | ClientEngineType.Binary => some ("query-engine-" ++ platform)
  | ClientEngineType.Other => none

/-- `buildNFTAnnotation` (lines 72-83 of buildNFTAnnotations.ts): one
annotation snippet, in ESM syntax or CommonJS syntax. -/
def buildNFTAnnot (esm : Bool) (fileName relativeOutdir : String) : String :=
  let relativeFilePath := posixJoin2 relativeOutdir fileName
  if esm = true then
    "\nnew URL(" ++ jsonStringify (posixJoin2 (".") fileName) ++ ", import.meta.url)"
  else
    "\npath.join(__dirname, " ++ jsonStringify fileName ++ ");\npath.join(process.cwd(), "
      ++ jsonStringify relativeFilePath ++ ")"

/-- `buildNFTAnnotations` (lines 20-44 of buildNFTAnnotations.ts).  `env` is
the ambient process environment; the source reads `process.env.NETLIFY` and,
when it is truthy, overrides the platform list with `['rhel-openssl-1.0.x']`. -/
def buildNFTAnnots (env : String → Option String) (dataProxy : Bool)
    (platforms : Option (List String)) (esm : Bool) (engineType : ClientEngineType)
    (relativeOutdir : String) : String :=
  if dataProxy = true then ""
  else
    match platforms with
    | none => ""
    | some platforms0 =>
      let platforms1 := if envTruthy (env ("NETLIFY")) then ["rhel-openssl-1.0.x"] else platforms0
      let engineAnnots := joinNl (platforms1.map (fun platform =>
        match getQueryEngineFilename engineType platform with
        | some engineFilename => buildNFTAnnot esm engineFilename relativeOutdir
        | none => ""))
      engineAnnots ++ buildNFTAnnot esm ("schema.prisma") relativeOutdir

/-- The asset filenames for which `buildNFTAnnots` emits an annotation (the
`fileName` arguments it passes to the annotation builder, including the fixed
schema asset), mirroring its branching.  The module-format flag `esm` is an
input of the emitter but does not take part in selecting the files. -/
def annotatedFiles (env : String → Option String) (dataProxy : Bool)
    (platforms : Option (List String)) (esm : Bool) (engineType : ClientEngineType) :
    List String :=
  if dataProxy = true then []
  else
    match platforms with
    | none => []
    | some platforms0 =>
      let _ := esm
      let platforms1 := if envTruthy (env ("NETLIFY")) then ["rhel-openssl-1.0.x"] else platforms0
      (platforms1.filterMap (fun p => getQueryEngineFilename engineType p)) ++ ["schema.prisma"]

/-- An environment with no variables set. -/
def noEnv : String → Option String := fun _ => none

/-- An environment in which only NETLIFY is set (to a truthy value). -/
def netlifyEnv : String → Option String :=
  fun k => if k = "NETLIFY" then some ("true") else none

/-! ## The placeholder client module
(src/packages/cli/prisma-client/scripts/default-index.js) -/

/-- The version record baked into the placeholder module. -/
def enginesVersion : String := "2ef5b74aa83695618276f241a13850fa2063b9da"

def clientVersion : String := "0.0.0"

structure PrismaVersion where
  client : String
  engine : String
deriving DecidableEq

def prismaVersion : PrismaVersion := ⟨clientVersion, enginesVersion⟩

/-- `Prisma.getExtensionContext` of the placeholder module: a pass-through. -/
def getExtensionContext {α : Type} (that : α) : α := that

/-- The fixed message of the error thrown by the placeholder `PrismaClient`
constructor (lines 41-48 of default-index.js). -/
def prismaClientInitError : String :=
  "@prisma/client did not initialize yet. Please run \"prisma generate\" and try to import it again.\nIn case this error is unexpected for you, please report it in https://github.com/prisma/prisma/issues"

/-- The `PrismaClient` constructor of the placeholder module: whatever the
argument list, construction throws the fixed instructional error, so it never
produces an instance (result type `Empty`). -/
def prismaClientConstruct {α : Type} (args : α) : Except String Empty :=
  let _ := args
  Except.error prismaClientInitError

/-! ## The e2e test-run orchestrator
(src/packages/client/tests/e2e/_utils/run.ts)

The filesystem touched by the script is reduced to what the claims observe:
the `package.json` manifest of each workspace package (index-aligned with the
folder list the script enumerates) and the `/tmp` snapshot copies.  External
commands are oracles: whether `pnpm -r build` / `pnpm pack` throw, the glob
result for fixture discovery, and the container exit code per fixture. -/

/-- A parsed package manifest object: the `dependencies` map plus every other
field, as ordered key/value lists. -/
structure PkgJson where
  dependencies : List (String × String)
  otherFields : List (String × String)
deriving DecidableEq

/-- The result of one fixture container, as collected by the script
(`ProcessOutput` plus the assigned `name`). -/
structure JobResult where
  name : String
  exitCode : Nat
deriving DecidableEq

/-- Mutable files of the run: the manifests and their `/tmp` snapshots. -/
structure World where
  manifests : List PkgJson
  tmpSnapshots : List PkgJson

/-- The CLI flags and positional filters of the script. -/
structure Flags where
  skipBuild : Bool
  skipPack : Bool
  runInBand : Bool
  filters : List String

/-- The external-world oracles of one run. -/
structure RunEnv where
  moduleExports : List PkgJson
  buildFails : Bool
  packFails : Bool
  fixtures : List String
  fixtureExit : String → Nat

/-- JavaScript `String.prototype.replace` with a string pattern: replace the
first occurrence only. -/
def replaceFirstList : List Char → List Char → List Char → List Char
  | [], pat, rep => if pat = [] then rep else []
  | c :: rest, pat, rep =>
    if pat.isPrefixOf (c :: rest) then rep ++ (c :: rest).drop pat.length
    else c :: replaceFirstList rest pat rep

def replaceFirst (s pat rep : String) : String :=
  ⟨replaceFirstList s.data pat.data rep.data⟩

/-- The tarball path substituted for an internal dependency (line 74 of
run.ts): `/tmp/${key.replace('@', '').replace('/', '-')}-0.0.0.tgz`. -/
def tarballPath (key : String) : String :=
  "/tmp/" ++ replaceFirst (replaceFirst key ("@") "") "/" "-" ++ "-0.0.0.tgz"

/-- JavaScript `s.startsWith(pre)`. -/
def strStartsWith (s pre : String) : Bool := pre.data.isPrefixOf s.data

/-- The per-manifest dependency rewrite of lines 72-76 of run.ts: every
dependency key starting with `@prisma/` is pointed at its packed tarball. -/
def rewriteDeps (pkg : PkgJson) : PkgJson :=
  { pkg with dependencies := pkg.dependencies.map (fun kv =>
      if strStartsWith kv.1 ("@prisma/") then (kv.1, tarballPath kv.1) else kv) }

/-- The manifest-rewriting loop of lines 71-79 of run.ts.  The objects it
rewrites and serializes into the `package.json` files are `allPkgJson`, which
line 68 loads with `require(allPackageFolders[i])` — the packages' module
exports — not the manifest files it writes back to; the current file contents
(second argument) are not read. -/
def rewriteStepFiles (moduleExports : List PkgJson) (manifests : List PkgJson) :
    List PkgJson :=
  let _ := manifests
  moduleExports.map rewriteDeps

/-- `restoreOriginal` (lines 58-60 of run.ts): copy each `/tmp` snapshot back
over the package's `package.json`. -/
def restoreOriginal (w : World) : World :=
  { w with manifests := w.tmpSnapshots }

/-- Whether the `pnpm -r build` step throws (lines 82-86 of run.ts). -/
def buildThrew (fl : Flags) (env : RunEnv) : Bool :=
  !fl.skipBuild && env.buildFails

/-- Whether the `pnpm pack` step throws (lines 88-90 of run.ts); it only runs
when the build step did not throw. -/
def packThrew (fl : Flags) (env : RunEnv) : Bool :=
  !(buildThrew fl env) && !fl.skipPack && env.packFails

/-- JavaScript `p.includes(a)` on strings. -/
def strIncludes (p a : String) : Bool := containsSub p.data a.data

/-- Fixture selection of lines 105-107 of run.ts: with positional arguments,
keep the fixture names containing at least one of them as a substring. -/
def selectFixtures (names filters : List String) : List String :=
  if filters.length > 0 then
    names.filter (fun p => filters.any (fun a => strIncludes p a))
  else names

/-- Sequential fixture execution (lines 127-132 of run.ts): each job result is
pushed, with its name, as soon as its container exits. -/
def runJobsInBand : List String → (String → Nat) → List JobResult
  | [], _ => []
  | n :: rest, f => { name := n, exitCode := f n } :: runJobsInBand rest f

/-- Concurrent fixture execution (lines 133-138 of run.ts): all containers are
launched, `Promise.all` joins them, and names are assigned by index. -/
def runJobsParallel (names : List String) (f : String → Nat) : List JobResult :=
  names.map (fun n => { name := n, exitCode := f n })

/-- The outcome of a run of `main`: either the build/pack stage threw (the
rethrown error reaches `main().catch`, which exits with code 1), or the run
reached the fixture stage and finished with the given results and exit code. -/
inductive RunOutcome where
  | fatalPack (w : World)
  | done (w : World) (results : List JobResult) (exitCode : Nat)

def RunOutcome.exitCode : RunOutcome → Nat
  | .fatalPack _ => 1
  | .done _ _ c => c

/-! ### Concrete example configurations (used by counterexamples and witnesses) -/

/-- A package manifest with one internal and one external dependency. -/
def c10Manifest : PkgJson :=
  { dependencies := [("@prisma/engines", "workspace:*"), ("lodash", "4.17.21")],
    otherFields := [("name", "example-package"), ("version", "1.0.0")] }

/-- Module exports of a package folder: a module that exports an empty
dependency object and nothing else (what `require(folder)` can yield). -/
def c10Exports : PkgJson := { dependencies := [], otherFields := [] }

def exFlags : Flags := { skipBuild := false, skipPack := false, runInBand := false, filters := [] }

def exWorld : World :=
  { manifests := [{ dependencies := [("@prisma/client", "workspace:*")], otherFields := [] }],
    tmpSnapshots := [] }

def exExports : PkgJson := { dependencies := [], otherFields := [] }

def exEnvBuildFail : RunEnv :=
  { moduleExports := [exExports], buildFails := true, packFails := false,
    fixtures := ["example-fixture"], fixtureExit := fun _ => 0 }

def exEnvOk : RunEnv :=
  { moduleExports := [exExports], buildFails := false, packFails := false,
    fixtures := ["f-pass", "f-fail"],
    fixtureExit := fun n => if n = "f-fail" then 1 else 0 }

/-- `main` of run.ts, from the snapshot step on: save manifest copies to
`/tmp`, rewrite the manifests, try the build and pack steps with the
unconditional (`finally`) manifest restore, then select fixtures, run them in
band or in parallel, and fail the run iff some fixture exited non-zero. -/
def runMain (fl : Flags) (env : RunEnv) (w0 : World) : RunOutcome :=
  let w1 : World := { w0 with tmpSnapshots := w0.manifests }
  let w2 : World := { w1 with manifests := rewriteStepFiles env.moduleExports w1.manifests }
  let w3 : World := restoreOriginal w2
  if buildThrew fl env || packThrew fl env then RunOutcome.fatalPack w3
  else
    let selected := selectFixtures env.fixtures fl.filters
    let results :=
      if fl.runInBand then runJobsInBand selected env.fixtureExit
      else runJobsParallel selected env.fixtureExit
    RunOutcome.done w3 results
      (if (results.filter (fun r => decide (r.exitCode ≠ 0))).length > 0 then 1 else 0)

/-! ## Helper lemmas for the annotation emitter -/

theorem isPrefixOf_ex (a b : List Char) : a.isPrefixOf b = true ↔ ∃ t, a ++ t = b := by
  induction a generalizing b with
  | nil => simp [List.isPrefixOf]
  | cons c cs ih =>
    cases b with
    | nil => simp [List.isPrefixOf]
    | cons d ds =>
      simp only [List.isPrefixOf, Bool.and_eq_true, beq_iff_eq, ih, List.cons_append,
        List.cons.injEq]
      constructor
      · rintro ⟨rfl, t, rfl⟩; exact ⟨t, rfl, rfl⟩
      · rintro ⟨t, rfl, rfl⟩; exact ⟨rfl, t, rfl⟩

theorem mem_tails_ex (t l : List Char) : t ∈ l.tails ↔ ∃ pre, pre ++ t = l :=
  List.mem_tails t l

theorem containsSub_iff (hay needle : List Char) :
    containsSub hay needle = true ↔ ListSub needle hay := by
  unfold containsSub ListSub
  rw [List.any_eq_true]
  constructor
  · rintro ⟨t, ht, hp⟩
    rcases (mem_tails_ex t hay).mp ht with ⟨pre, rfl⟩
    rcases (isPrefixOf_ex needle t).mp hp with ⟨post, rfl⟩
    exact ⟨pre, post, by simp⟩
  · rintro ⟨pre, post, rfl⟩
    refine ⟨needle ++ post, ?_, ?_⟩
    · exact (mem_tails_ex _ _).mpr ⟨pre, by simp⟩
    · exact (isPrefixOf_ex _ _).mpr ⟨post, rfl⟩

instance (n h : String) : Decidable (SubstrOf n h) :=
  decidable_of_iff (containsSub h.data n.data = true) (containsSub_iff h.data n.data)

theorem data_append (a b : String) : (a ++ b).data = a.data ++ b.data := rfl

theorem listSub_self (n : List Char) : ListSub n n := ⟨[], [], by simp⟩

theorem listSub_appendL {n a : List Char} (b : List Char) (h : ListSub n a) :
    ListSub n (a ++ b) := by
  rcases h with ⟨p, q, rfl⟩
  exact ⟨p, q ++ b, by simp⟩

theorem listSub_appendR (a : List Char) {n b : List Char} (h : ListSub n b) :
    ListSub n (a ++ b) := by
  rcases h with ⟨p, q, rfl⟩
  exact ⟨a ++ p, q, by simp⟩

theorem listSub_mid (p q : List Char) (n : List Char) : ListSub n (p ++ n ++ q) :=
  ⟨p, q, rfl⟩

theorem listSub_joinNl {s : String} {l : List String} (hs : s ∈ l) :
    ListSub s.data (joinNl l).data := by
  induction l with
  | nil => cases hs
  | cons x xs ih =>
    cases xs with
    | nil =>
      rcases List.mem_singleton.mp hs with rfl
      exact listSub_self _
    | cons y ys =>
      rcases List.mem_cons.mp hs with rfl | hmem
      · show ListSub s.data (s ++ "\n" ++ joinNl (y :: ys)).data
        rw [data_append, data_append]
        exact listSub_appendL _ (listSub_appendL _ (listSub_self _))
      · show ListSub s.data (x ++ "\n" ++ joinNl (y :: ys)).data
        rw [data_append]
        exact listSub_appendR _ (ih hmem)

theorem jsonEscapeChar_plain {c : Char} (h : plainChar c = true) : jsonEscapeChar c = [c] := by
  simp only [plainChar, Bool.and_eq_true, decide_eq_true_eq] at h
  obtain ⟨⟨⟨h1, h2⟩, _⟩, h4⟩ := h
  have hb : c ≠ '\x08' := by rintro rfl; exact absurd h4 (by decide)
  have hf : c ≠ '\x0c' := by rintro rfl; exact absurd h4 (by decide)
  have hn : c ≠ '\n' := by rintro rfl; exact absurd h4 (by decide)
  have hr : c ≠ '\r' := by rintro rfl; exact absurd h4 (by decide)
  have ht : c ≠ '\t' := by rintro rfl; exact absurd h4 (by decide)
  have h32 : ¬c.toNat < 32 := by omega
  simp [jsonEscapeChar, h1, h2, hb, hf, hn, hr, ht, h32]

theorem mapEscape_plain : ∀ l : List Char, (∀ c ∈ l, plainChar c = true) →
    (l.map jsonEscapeChar).flatten = l
  | [], _ => rfl
  | c :: cs, h => by
    simp only [List.map_cons, List.flatten_cons]
    rw [jsonEscapeChar_plain (h c (List.mem_cons_self c cs)),
      mapEscape_plain cs (fun x hx => h x (List.mem_cons_of_mem c hx))]
    rfl

theorem jsonStringify_plain {s : String} (h : plainIdent s = true) :
    (jsonStringify s).data = ['"'] ++ s.data ++ ['"'] := by
  simp only [plainIdent, List.all_eq_true] at h
  show '"' :: (s.data.map jsonEscapeChar).flatten ++ ['"'] = ['"'] ++ s.data ++ ['"']
  rw [mapEscape_plain s.data (fun c hc => h c hc)]
  rfl


theorem listSub_trans {a b c : List Char} (h1 : ListSub a b) (h2 : ListSub b c) :
    ListSub a c := by
  rcases h1 with ⟨p1, q1, rfl⟩
  rcases h2 with ⟨p2, q2, rfl⟩
  exact ⟨p2 ++ p1, q1 ++ q2, by simp⟩

theorem plainChar_props {c : Char} (h : plainChar c = true) :
    c ≠ '"' ∧ c ≠ '\\' ∧ c ≠ '/' ∧ 32 ≤ c.toNat := by
  simpa [plainChar, Bool.and_eq_true, decide_eq_true_eq, and_assoc] using h

theorem plainIdent_mem {f : String} (h : plainIdent f = true) :
    ∀ c ∈ f.data, plainChar c = true := by
  intro c hc
  exact List.all_eq_true.mp h c hc

theorem plainIdent_noSlash {f : String} (h : plainIdent f = true) :
    ∀ c ∈ f.data, c ≠ '/' :=
  fun c hc => (plainChar_props (plainIdent_mem h c hc)).2.2.1

theorem splitSlash_noSlash : ∀ (l : List Char), (∀ c ∈ l, c ≠ '/') → splitSlash l = [l]
  | [], _ => rfl
  | c :: rest, h => by
    have hc : ¬(c = '/') := h c (List.mem_cons_self c rest)
    have ih := splitSlash_noSlash rest (fun x hx => h x (List.mem_cons_of_mem c hx))
    simp [splitSlash, hc, ih]

theorem lastIsSlash_noSlash : ∀ (l : List Char), (∀ c ∈ l, c ≠ '/') → lastIsSlash l = false
  | [], _ => rfl
  | [c], h => by simp [lastIsSlash, h c (List.mem_cons_self c [])]
  | a :: b :: rest, h => by
    have ih := lastIsSlash_noSlash (b :: rest) (fun x hx => h x (List.mem_cons_of_mem a hx))
    simpa [lastIsSlash] using ih

theorem ne_empty_of_data {s : String} (h : s.data ≠ []) : s ≠ "" :=
  fun he => h (by rw [he])

theorem string_data_inj {a b : String} (h : a.data = b.data) : a = b := by
  cases a; cases b; exact congrArg String.mk h

theorem posixNormalize_dotslash (c0 : Char) (rest : List Char)
    (hns : ∀ ch ∈ c0 :: rest, ch ≠ '/') (hc0 : c0 ≠ '.') :
    posixNormalize ⟨'.' :: '/' :: c0 :: rest⟩ = ⟨c0 :: rest⟩ := by
  have hsplit : splitSlash (c0 :: rest) = [c0 :: rest] := splitSlash_noSlash _ hns
  have hlast2 : lastIsSlash (c0 :: rest) = false := lastIsSlash_noSlash _ hns
  have hsp : splitSlash ('.' :: '/' :: c0 :: rest) = [['.'], c0 :: rest] := by
    have e : splitSlash ('.' :: '/' :: c0 :: rest) = ['.'] :: splitSlash (c0 :: rest) := rfl
    rw [e, hsplit]
  have hn1 : ¬(c0 :: rest = [] ∨ c0 :: rest = ['.']) := by
    rintro (h | h)
    · cases h
    · injection h with h1 h2; exact hc0 h1
  have hn2 : ¬(c0 :: rest = ['.', '.']) := by
    intro h; injection h with h1 h2; exact hc0 h1
  have h1 : normStep true [] ['.'] = [] := by simp [normStep]
  have h2 : normStep true [] (c0 :: rest) = [c0 :: rest] := by
    unfold normStep
    rw [if_neg hn1, if_neg hn2]
  have hla : lastIsSlash ('.' :: '/' :: c0 :: rest) = false := by
    simpa [lastIsSlash] using hlast2
  have hfi : firstIsSlash ('.' :: '/' :: c0 :: rest) = false := rfl
  unfold posixNormalize
  rw [if_neg (show ¬((⟨'.' :: '/' :: c0 :: rest⟩ : String).data = []) from by simp)]
  dsimp only
  rw [hfi, hla, hsp]
  simp only [Bool.not_false, List.foldl_cons, List.foldl_nil, h1, h2]
  simp [joinWith]

theorem posixJoin_dot {f : String} (hns : ∀ ch ∈ f.data, ch ≠ '/')
    (hne : f.data ≠ []) (hhd : f.data.head? ≠ some '.') :
    posixJoin2 (".") f = f := by
  obtain ⟨c0, rest, hdata⟩ : ∃ c0 rest, f.data = c0 :: rest := by
    cases hd : f.data with
    | nil => exact absurd hd hne
    | cons a l => exact ⟨a, l, rfl⟩
  have hc0 : c0 ≠ '.' := by
    rw [hdata] at hhd
    simpa using hhd
  have hfne : f ≠ "" := ne_empty_of_data hne
  have harg : ("." ++ "/" ++ f) = (⟨'.' :: '/' :: c0 :: rest⟩ : String) :=
    string_data_inj (by rw [data_append, data_append, hdata]; rfl)
  unfold posixJoin2
  rw [if_neg (fun hand => absurd hand.1 (by decide)), if_neg (by decide), if_neg hfne,
    harg, posixNormalize_dotslash c0 rest (hdata ▸ hns) hc0]
  exact string_data_inj (by rw [hdata])

theorem listSub_json {f : String} (hplain : plainIdent f = true) :
    ListSub f.data (jsonStringify f).data := by
  rw [jsonStringify_plain hplain]
  exact listSub_mid ['"'] ['"'] f.data

theorem listSub_f_annot {f : String} (esm : Bool) (outdir : String)
    (hplain : plainIdent f = true) (hne : f.data ≠ []) (hhd : f.data.head? ≠ some '.') :
    ListSub f.data (buildNFTAnnot esm f outdir).data := by
  have hns := plainIdent_noSlash hplain
  cases esm with
  | false =>
    show ListSub f.data
      ("\npath.join(__dirname, " ++ jsonStringify f ++ ");\npath.join(process.cwd(), "
        ++ jsonStringify (posixJoin2 outdir f) ++ ")").data
    simp only [data_append]
    apply listSub_appendL
    apply listSub_appendL
    apply listSub_appendL
    apply listSub_appendR
    exact listSub_json hplain
  | true =>
    show ListSub f.data
      ("\nnew URL(" ++ jsonStringify (posixJoin2 (".") f) ++ ", import.meta.url)").data
    rw [posixJoin_dot hns hne hhd]
    simp only [data_append]
    apply listSub_appendL
    apply listSub_appendR
    exact listSub_json hplain

theorem buildNFTAnnot_data_ne (esm : Bool) (fn od : String) :
    (buildNFTAnnot esm fn od).data ≠ [] := by
  cases esm with
  | true =>
    show ("\nnew URL(" ++ jsonStringify (posixJoin2 (".") fn)
      ++ ", import.meta.url)").data ≠ []
    simp only [data_append]
    intro h
    rcases List.append_eq_nil.mp h with ⟨h1, _⟩
    rcases List.append_eq_nil.mp h1 with ⟨h2, _⟩
    exact absurd h2 (by decide)
  | false =>
    show ("\npath.join(__dirname, " ++ jsonStringify fn ++ ");\npath.join(process.cwd(), "
      ++ jsonStringify (posixJoin2 od fn) ++ ")").data ≠ []
    simp only [data_append]
    intro h
    rcases List.append_eq_nil.mp h with ⟨h1, _⟩
    rcases List.append_eq_nil.mp h1 with ⟨h2, _⟩
    rcases List.append_eq_nil.mp h2 with ⟨h3, _⟩
    rcases List.append_eq_nil.mp h3 with ⟨h4, _⟩
    exact absurd h4 (by decide)

theorem head?_append_some {l₁ : List Char} {a : Char} (l₂ : List Char)
    (h : l₁.head? = some a) : (l₁ ++ l₂).head? = some a := by
  cases l₁ with
  | nil => cases h
  | cons x xs => simpa using h

theorem gQEF_facts {et : ClientEngineType} {p f : String} (hp : plainIdent p = true)
    (h : getQueryEngineFilename et p = some f) :
    plainIdent f = true ∧ f.data ≠ [] ∧ f.data.head? ≠ some '.' := by
  cases et with
  | Library =>
    have h' : getNodeAPIName p = f := by
      simpa [getQueryEngineFilename] using h
    subst h'
    have hh : (getNodeAPIName p).data.head? = some 'l' := by
      show (("libquery_engine-" ++ p ++ ".so.node")).data.head? = some 'l'
      rw [data_append, data_append]
      exact head?_append_some _ (head?_append_some _ (by decide))
    refine ⟨?_, ?_, ?_⟩
    · show plainIdent ("libquery_engine-" ++ p ++ ".so.node") = true
      unfold plainIdent
      rw [data_append, data_append, List.all_append, List.all_append]
      rw [Bool.and_eq_true, Bool.and_eq_true]
      exact ⟨⟨by decide, hp⟩, by decide⟩
    · intro h0; rw [h0] at hh; cases hh
    · rw [hh]; simp
  | Binary =>
    have h' : "query-engine-" ++ p = f := by
      simpa [getQueryEngineFilename] using h
    subst h'
    have hh : ("query-engine-" ++ p).data.head? = some 'q' := by
      rw [data_append]
      exact head?_append_some _ (by decide)
    refine ⟨?_, ?_, ?_⟩
    · unfold plainIdent
      rw [data_append, List.all_append, Bool.and_eq_true]
      exact ⟨by decide, hp⟩
    · intro h0; rw [h0] at hh; cases hh
    · rw [hh]; simp
  | Other => exact Option.noConfusion h

theorem listSub_files_output (esm : Bool) (et : ClientEngineType) (outdir : String)
    (ps1 : List String) (hp : ∀ q ∈ ps1, plainIdent q = true) :
    ∀ f ∈ ps1.filterMap (fun q => getQueryEngineFilename et q) ++ ["schema.prisma"],
      ListSub f.data
        (joinNl (ps1.map (fun platform =>
          match getQueryEngineFilename et platform with
          | some g => buildNFTAnnot esm g outdir
          | none => "")) ++ buildNFTAnnot esm ("schema.prisma") outdir).data := by
  intro f hf
  rw [data_append]
  rcases List.mem_append.mp hf with hf1 | hf2
  · rcases List.mem_filterMap.mp hf1 with ⟨q, hq, hgq⟩
    have facts := gQEF_facts (hp q hq) hgq
    apply listSub_appendL
    have hmem : buildNFTAnnot esm f outdir ∈ ps1.map (fun platform =>
        match getQueryEngineFilename et platform with
        | some g => buildNFTAnnot esm g outdir
        | none => "") := by
      have heq : (match getQueryEngineFilename et q with
          | some g => buildNFTAnnot esm g outdir
          | none => "") = buildNFTAnnot esm f outdir := by rw [hgq]
      rw [← heq]
      exact List.mem_map_of_mem _ hq
    exact listSub_trans (listSub_f_annot esm outdir facts.1 facts.2.1 facts.2.2)
      (listSub_joinNl hmem)
  · rcases List.mem_singleton.mp hf2 with rfl
    apply listSub_appendR
    exact listSub_f_annot esm outdir (by decide) (by decide) (by decide)

/-! ## Helper lemmas for the orchestrator -/

theorem filter_ne_exists (l : List JobResult) :
    (l.filter (fun r => decide (r.exitCode ≠ 0))).length > 0 ↔ ∃ r ∈ l, r.exitCode ≠ 0 := by
  rw [gt_iff_lt, List.length_pos]
  constructor
  · intro h
    rcases List.exists_mem_of_ne_nil _ h with ⟨r, hr⟩
    have hm := List.mem_filter.mp hr
    exact ⟨r, hm.1, of_decide_eq_true hm.2⟩
  · rintro ⟨r, hrl, hr⟩ hnil
    have hm : r ∈ l.filter (fun r => decide (r.exitCode ≠ 0)) :=
      List.mem_filter.mpr ⟨hrl, decide_eq_true hr⟩
    rw [hnil] at hm
    cases hm

theorem runJobsInBand_eq_map : ∀ (names : List String) (f : String → Nat),
    runJobsInBand names f = names.map (fun n => { name := n, exitCode := f n })
  | [], _ => rfl
  | n :: rest, f => by
    rw [List.map_cons, ← runJobsInBand_eq_map rest f]
    rfl

/-! ## Claims about the orchestrator -/

/-- C3: in every run in which the build or pack step throws, the
manifest-restore step still executes before the run aborts, so the manifests
equal their pre-run snapshots after the failure. -/
theorem run_restores_manifests_on_failure (fl : Flags) (env : RunEnv) (w0 : World)
    (h : (buildThrew fl env || packThrew fl env) = true) :
    ∃ w, runMain fl env w0 = RunOutcome.fatalPack w ∧ w.manifests = w0.manifests := by
  refine ⟨{ manifests := w0.manifests, tmpSnapshots := w0.manifests }, ?_, rfl⟩
  simp [runMain, restoreOriginal, h]

theorem run_restores_manifests_on_failure_witness :
    ∃ w, runMain exFlags exEnvBuildFail exWorld = RunOutcome.fatalPack w ∧
      w.manifests = exWorld.manifests :=
  run_restores_manifests_on_failure exFlags exEnvBuildFail exWorld (by decide)

/-- C4: in every run reaching the fixture-execution stage, the exit code is
non-zero iff at least one fixture's subprocess reports a non-zero exit code;
if every fixture exits zero, the orchestrator exits zero. -/
theorem run_exit_iff_fixture_failed (fl : Flags) (env : RunEnv) (w0 : World)
    (h : (buildThrew fl env || packThrew fl env) = false) :
    ∃ w results code, runMain fl env w0 = RunOutcome.done w results code ∧
      (code ≠ 0 ↔ ∃ r ∈ results, r.exitCode ≠ 0) ∧
      ((∀ r ∈ results, r.exitCode = 0) → code = 0) := by
  set R := if fl.runInBand then
      runJobsInBand (selectFixtures env.fixtures fl.filters) env.fixtureExit
    else runJobsParallel (selectFixtures env.fixtures fl.filters) env.fixtureExit with hRdef
  refine ⟨⟨w0.manifests, w0.manifests⟩, R,
    if (R.filter (fun r => decide (r.exitCode ≠ 0))).length > 0 then 1 else 0, ?_, ?_, ?_⟩
  · simp only [runMain, restoreOriginal, h, Bool.false_eq_true, if_false, hRdef]
  · by_cases hl : (R.filter (fun r => decide (r.exitCode ≠ 0))).length > 0
    · rw [if_pos hl]
      exact iff_of_true (by decide) ((filter_ne_exists R).mp hl)
    · rw [if_neg hl]
      exact iff_of_false (by simp) (fun hex => hl ((filter_ne_exists R).mpr hex))
  · intro hall
    by_cases hl : (R.filter (fun r => decide (r.exitCode ≠ 0))).length > 0
    · rcases (filter_ne_exists R).mp hl with ⟨r, hrl, hr⟩
      exact absurd (hall r hrl) hr
    · rw [if_neg hl]

theorem run_exit_iff_fixture_failed_witness :
    ∃ w results code, runMain exFlags exEnvOk exWorld = RunOutcome.done w results code ∧
      (code ≠ 0 ↔ ∃ r ∈ results, r.exitCode ≠ 0) ∧
      ((∀ r ∈ results, r.exitCode = 0) → code = 0) :=
  run_exit_iff_fixture_failed exFlags exEnvOk exWorld (by decide)

/-- C5: a non-empty positional filter list selects exactly the discovered
fixtures whose name contains at least one filter string as a substring; an
empty filter list selects all discovered fixtures. -/
theorem selectFixtures_spec (names filters : List String) :
    (filters = [] → selectFixtures names filters = names) ∧
    (filters ≠ [] → ∀ p, p ∈ selectFixtures names filters ↔
      p ∈ names ∧ ∃ a ∈ filters, SubstrOf a p) := by
  constructor
  · rintro rfl; rfl
  · intro hne p
    have hlen : filters.length > 0 := List.length_pos.mpr hne
    unfold selectFixtures
    rw [if_pos hlen, List.mem_filter, List.any_eq_true]
    constructor
    · rintro ⟨hp, a, ha, hinc⟩
      exact ⟨hp, a, ha, (containsSub_iff p.data a.data).mp hinc⟩
    · rintro ⟨hp, a, ha, hsub⟩
      exact ⟨hp, a, ha, (containsSub_iff p.data a.data).mpr hsub⟩

theorem selectFixtures_spec_witness :
    selectFixtures ["alpha-one", "beta-two"] [] = ["alpha-one", "beta-two"] ∧
    ("alpha-one" ∈ selectFixtures ["alpha-one", "beta-two"] ["one"] ↔
      "alpha-one" ∈ ["alpha-one", "beta-two"] ∧ ∃ a ∈ ["one"], SubstrOf a ("alpha-one")) :=
  ⟨(selectFixtures_spec ["alpha-one", "beta-two"] []).1 rfl,
   (selectFixtures_spec ["alpha-one", "beta-two"] ["one"]).2 (by decide) "alpha-one"⟩

/-- C9: a failing fixture does not abort its siblings: in both sequential and
concurrent mode the aggregated result list carries exactly one result per
selected fixture, whatever the exit codes are, and each fixture's result is in
the list. -/
theorem run_all_fixtures_reported (fl : Flags) (env : RunEnv) (w0 : World)
    (h : (buildThrew fl env || packThrew fl env) = false) :
    runJobsInBand (selectFixtures env.fixtures fl.filters) env.fixtureExit =
      runJobsParallel (selectFixtures env.fixtures fl.filters) env.fixtureExit ∧
    ∃ w code, runMain fl env w0 = RunOutcome.done w
        ((selectFixtures env.fixtures fl.filters).map
          (fun n => { name := n, exitCode := env.fixtureExit n })) code ∧
      ((selectFixtures env.fixtures fl.filters).map
          (fun n => ({ name := n, exitCode := env.fixtureExit n } : JobResult))).map
        JobResult.name = selectFixtures env.fixtures fl.filters ∧
      ∀ n ∈ selectFixtures env.fixtures fl.filters,
        ({ name := n, exitCode := env.fixtureExit n } : JobResult) ∈
          (selectFixtures env.fixtures fl.filters).map
            (fun n => ({ name := n, exitCode := env.fixtureExit n } : JobResult)) := by
  have hib := runJobsInBand_eq_map (selectFixtures env.fixtures fl.filters) env.fixtureExit
  have hR : (if fl.runInBand then
      runJobsInBand (selectFixtures env.fixtures fl.filters) env.fixtureExit
    else runJobsParallel (selectFixtures env.fixtures fl.filters) env.fixtureExit) =
      (selectFixtures env.fixtures fl.filters).map
        (fun n => { name := n, exitCode := env.fixtureExit n }) := by
    cases fl.runInBand
    · rfl
    · exact hib
  refine ⟨hib, ⟨w0.manifests, w0.manifests⟩,
    if (((selectFixtures env.fixtures fl.filters).map
        (fun n => ({ name := n, exitCode := env.fixtureExit n } : JobResult))).filter
          (fun r => decide (r.exitCode ≠ 0))).length > 0 then 1 else 0, ?_, ?_, ?_⟩
  · simp only [runMain, restoreOriginal, h, Bool.false_eq_true, if_false, hR]
  · rw [List.map_map]
    have hcomp : (JobResult.name ∘ fun n => ({ name := n, exitCode := env.fixtureExit n } :
        JobResult)) = fun n => n := by
      funext n; rfl
    rw [hcomp]
    exact List.map_id' _
  · intro n hn
    exact List.mem_map_of_mem _ hn

theorem run_all_fixtures_reported_witness :
    runJobsInBand (selectFixtures exEnvOk.fixtures exFlags.filters) exEnvOk.fixtureExit =
      runJobsParallel (selectFixtures exEnvOk.fixtures exFlags.filters) exEnvOk.fixtureExit ∧
    ∃ w code, runMain exFlags exEnvOk exWorld = RunOutcome.done w
        ((selectFixtures exEnvOk.fixtures exFlags.filters).map
          (fun n => { name := n, exitCode := exEnvOk.fixtureExit n })) code ∧
      ((selectFixtures exEnvOk.fixtures exFlags.filters).map
          (fun n => ({ name := n, exitCode := exEnvOk.fixtureExit n } : JobResult))).map
        JobResult.name = selectFixtures exEnvOk.fixtures exFlags.filters ∧
      ∀ n ∈ selectFixtures exEnvOk.fixtures exFlags.filters,
        ({ name := n, exitCode := exEnvOk.fixtureExit n } : JobResult) ∈
          (selectFixtures exEnvOk.fixtures exFlags.filters).map
            (fun n => ({ name := n, exitCode := exEnvOk.fixtureExit n } : JobResult)) :=
  run_all_fixtures_reported exFlags exEnvOk exWorld (by decide)

/-- C10 (code bug): the manifest-rewrite loop serializes `require(folder)` —
the package's module exports, loaded on line 68 from the package folder, not
from its `package.json` path — so what it writes back is the rewritten module
exports, not the manifest with only its `@prisma/` dependencies replaced: at
this input the written file drops every field of the real manifest.  The
expected write-back per the claim is `rewriteDeps c10Manifest`, which indeed
changes only the `@prisma/` dependency entry. -/
theorem rewrite_clobbers_manifest :
    rewriteStepFiles [c10Exports] [c10Manifest] = [rewriteDeps c10Exports] ∧
    rewriteStepFiles [c10Exports] [c10Manifest] ≠ [rewriteDeps c10Manifest] ∧
    (rewriteDeps c10Manifest).otherFields = c10Manifest.otherFields ∧
    (rewriteDeps c10Manifest).dependencies =
      [("@prisma/engines", "/tmp/prisma-engines-0.0.0.tgz"), ("lodash", "4.17.21")] := by
  refine ⟨rfl, by decide, rfl, by decide⟩

/-! ## Claims about the placeholder module -/

/-- C8: invoking the placeholder `PrismaClient` constructor always throws the
same fixed instructional message, for every argument list. -/
theorem prismaClientConstruct_always_throws {α : Type} (args : α) :
    prismaClientConstruct args = Except.error prismaClientInitError ∧
    prismaClientInitError = "@prisma/client did not initialize yet. Please run \"prisma generate\" and try to import it again.\nIn case this error is unexpected for you, please report it in https://github.com/prisma/prisma/issues" :=
  ⟨rfl, rfl⟩

/-! ## Claims about the annotation emitter -/

/-- C2 counterexample: with equal configuration inputs, the emitted text
differs between an environment with NETLIFY set and one without, so the
emitter is not a pure function of its configuration inputs alone. -/
theorem buildNFTAnnots_env_dependent :
    buildNFTAnnots netlifyEnv false (some ["debian-openssl-1.1.x"]) false
      ClientEngineType.Binary ("out") ≠
    buildNFTAnnots noEnv false (some ["debian-openssl-1.1.x"]) false
      ClientEngineType.Binary ("out") := by
  decide

/-- C2 (amended): the emitter is a pure function of its configuration inputs
together with the truthiness of the NETLIFY environment variable: any two
environments agreeing on that flag yield identical output on equal inputs. -/
theorem buildNFTAnnots_env_noninterference (env1 env2 : String → Option String)
    (dataProxy : Bool) (platforms : Option (List String)) (esm : Bool)
    (engineType : ClientEngineType) (outdir : String)
    (h : envTruthy (env1 ("NETLIFY")) = envTruthy (env2 ("NETLIFY"))) :
    buildNFTAnnots env1 dataProxy platforms esm engineType outdir =
    buildNFTAnnots env2 dataProxy platforms esm engineType outdir := by
  unfold buildNFTAnnots
  rw [h]

theorem buildNFTAnnots_env_noninterference_witness :
    buildNFTAnnots (fun _ => some ("")) false (some ["debian-openssl-1.1.x"]) false
      ClientEngineType.Binary ("out") =
    buildNFTAnnots noEnv false (some ["debian-openssl-1.1.x"]) false
      ClientEngineType.Binary ("out") :=
  buildNFTAnnots_env_noninterference (fun _ => some ("")) noEnv false
    (some ["debian-openssl-1.1.x"]) false ClientEngineType.Binary ("out") (by decide)

/-- C7 counterexample: for an engine type that needs no asset the emitter does
not return the empty string — the unconditional schema annotation (and the
per-platform separators) are still emitted. -/
theorem buildNFTAnnots_noasset_not_empty :
    buildNFTAnnots noEnv false (some ["debian-openssl-1.1.x"]) false
      ClientEngineType.Other ("out") ≠ "" := by
  decide

/-- C7 (amended): the emitter has no error path; it returns exactly `""` when
dataProxy is enabled or the platform list is absent, and for an engine type
that needs no asset it emits no engine annotations — only the per-platform
separators and the schema annotation — rather than failing. -/
theorem buildNFTAnnots_degrades (env : String → Option String) (dataProxy : Bool)
    (platforms : Option (List String)) (esm : Bool) (engineType : ClientEngineType)
    (outdir : String) :
    (dataProxy = true → buildNFTAnnots env dataProxy platforms esm engineType outdir = "") ∧
    (platforms = none → buildNFTAnnots env dataProxy platforms esm engineType outdir = "") ∧
    (∀ ps, platforms = some ps → dataProxy = false →
      engineType = ClientEngineType.Other →
      buildNFTAnnots env dataProxy platforms esm engineType outdir =
        joinNl ((if envTruthy (env ("NETLIFY")) then ["rhel-openssl-1.0.x"] else ps).map
          (fun _ => "")) ++ buildNFTAnnot esm ("schema.prisma") outdir) := by
  refine ⟨?_, ?_, ?_⟩
  · rintro rfl; rfl
  · rintro rfl; cases dataProxy <;> rfl
  · rintro ps rfl rfl rfl
    simp [buildNFTAnnots, getQueryEngineFilename]

theorem buildNFTAnnots_degrades_witness :
    buildNFTAnnots noEnv false (some ["p1", "p2"]) true ClientEngineType.Other ("out") =
      joinNl ((if envTruthy (noEnv ("NETLIFY")) then ["rhel-openssl-1.0.x"] else ["p1", "p2"]).map
        (fun _ => "")) ++ buildNFTAnnot true ("schema.prisma") "out" :=
  (buildNFTAnnots_degrades noEnv false (some ["p1", "p2"]) true ClientEngineType.Other
    "out").2.2 ["p1", "p2"] rfl rfl rfl

/-- C1 counterexample: with NETLIFY set truthy in the ambient environment, the
source overrides the platform list, and the emitted text does not contain the
expected engine asset filename of the requested platform, refuting the claim
as stated over every configuration. -/
theorem buildNFTAnnots_netlify_override_breaks_claim :
    getQueryEngineFilename ClientEngineType.Binary ("debian-openssl-1.1.x") =
      some ("query-engine-debian-openssl-1.1.x") ∧
    ¬ SubstrOf ("query-engine-debian-openssl-1.1.x")
      (buildNFTAnnots netlifyEnv false (some ["debian-openssl-1.1.x"]) false
        ClientEngineType.Binary ("out")) :=
  ⟨rfl, by decide⟩

/-- C1 (amended): for every configuration the emitter returns exactly `""`
when dataProxy is true or platforms is undefined; and — provided NETLIFY is
not set truthy in the ambient environment — for the Library and Binary engine
types and every defined list of plain platform identifiers it returns a
non-empty string containing, for each platform in the list, the expected
literal engine asset filename for that engine-type/platform pair. -/
theorem buildNFTAnnots_filename_spec (env : String → Option String) (dataProxy : Bool)
    (platforms : Option (List String)) (esm : Bool) (engineType : ClientEngineType)
    (outdir : String) :
    (dataProxy = true → buildNFTAnnots env dataProxy platforms esm engineType outdir = "") ∧
    (platforms = none → buildNFTAnnots env dataProxy platforms esm engineType outdir = "") ∧
    (∀ ps, platforms = some ps → dataProxy = false → envTruthy (env ("NETLIFY")) = false →
      (engineType = ClientEngineType.Library ∨ engineType = ClientEngineType.Binary) →
      (∀ q ∈ ps, plainIdent q = true) →
      buildNFTAnnots env dataProxy platforms esm engineType outdir ≠ "" ∧
      ∀ q ∈ ps, ∃ f, getQueryEngineFilename engineType q = some f ∧
        SubstrOf f (buildNFTAnnots env dataProxy platforms esm engineType outdir)) := by
  refine ⟨?_, ?_, ?_⟩
  · rintro rfl; rfl
  · rintro rfl; cases dataProxy <;> rfl
  · rintro ps rfl rfl hnet het hp
    have hout : buildNFTAnnots env false (some ps) esm engineType outdir =
        joinNl (ps.map (fun platform =>
          match getQueryEngineFilename engineType platform with
          | some g => buildNFTAnnot esm g outdir
          | none => "")) ++ buildNFTAnnot esm ("schema.prisma") outdir := by
      simp [buildNFTAnnots, hnet]
    constructor
    · rw [hout]
      apply ne_empty_of_data
      rw [data_append]
      intro h0
      exact buildNFTAnnot_data_ne esm ("schema.prisma") outdir (List.append_eq_nil.mp h0).2
    · intro q hq
      obtain ⟨f, hf⟩ : ∃ f, getQueryEngineFilename engineType q = some f := by
        rcases het with rfl | rfl
        · exact ⟨_, rfl⟩
        · exact ⟨_, rfl⟩
      refine ⟨f, hf, ?_⟩
      rw [hout]
      exact listSub_files_output esm engineType outdir ps hp f
        (List.mem_append.mpr (Or.inl (List.mem_filterMap.mpr ⟨q, hq, hf⟩)))

theorem buildNFTAnnots_filename_spec_witness :
    buildNFTAnnots noEnv false (some ["debian-openssl-1.1.x"]) false
      ClientEngineType.Library ("out") ≠ "" ∧
    ∃ f, getQueryEngineFilename ClientEngineType.Library ("debian-openssl-1.1.x") = some f ∧
      SubstrOf f (buildNFTAnnots noEnv false (some ["debian-openssl-1.1.x"]) false
        ClientEngineType.Library ("out")) := by
  have h := (buildNFTAnnots_filename_spec noEnv false (some ["debian-openssl-1.1.x"]) false
    ClientEngineType.Library ("out")).2.2 ["debian-openssl-1.1.x"] rfl rfl (by decide)
    (Or.inl rfl) (by decide)
  exact ⟨h.1, h.2 ("debian-openssl-1.1.x") (by decide)⟩

/-- C6: switching the module-format flag changes only the annotation syntax,
not the set of asset files the emitter references: the annotated file list is
identical for both flag values, and (for plain platform identifiers) each of
these filenames occurs literally in the emitted text under both flag values. -/
theorem esm_flag_references_same_files (env : String → Option String) (dataProxy : Bool)
    (platforms : Option (List String)) (engineType : ClientEngineType) (outdir : String) :
    annotatedFiles env dataProxy platforms true engineType =
      annotatedFiles env dataProxy platforms false engineType ∧
    (∀ ps, platforms = some ps → (∀ q ∈ ps, plainIdent q = true) →
      ∀ f ∈ annotatedFiles env dataProxy platforms true engineType,
        SubstrOf f (buildNFTAnnots env dataProxy platforms true engineType outdir) ∧
        SubstrOf f (buildNFTAnnots env dataProxy platforms false engineType outdir)) := by
  refine ⟨rfl, ?_⟩
  rintro ps rfl hp f hf
  cases dataProxy with
  | true => simp [annotatedFiles] at hf
  | false =>
    cases hnet : envTruthy (env ("NETLIFY")) with
    | true =>
      have hfeq : f ∈ (["rhel-openssl-1.0.x"] : List String).filterMap
          (fun q => getQueryEngineFilename engineType q) ++ ["schema.prisma"] := by
        simpa [annotatedFiles, hnet] using hf
      have hout : ∀ esm, buildNFTAnnots env false (some ps) esm engineType outdir =
          joinNl ((["rhel-openssl-1.0.x"] : List String).map (fun platform =>
            match getQueryEngineFilename engineType platform with
            | some g => buildNFTAnnot esm g outdir
            | none => "")) ++ buildNFTAnnot esm ("schema.prisma") outdir := by
        intro esm; simp [buildNFTAnnots, hnet]
      refine ⟨?_, ?_⟩
      · rw [hout true]
        exact listSub_files_output true engineType outdir _ (by decide) f hfeq
      · rw [hout false]
        exact listSub_files_output false engineType outdir _ (by decide) f hfeq
    | false =>
      have hfeq : f ∈ ps.filterMap
          (fun q => getQueryEngineFilename engineType q) ++ ["schema.prisma"] := by
        simpa [annotatedFiles, hnet] using hf
      have hout : ∀ esm, buildNFTAnnots env false (some ps) esm engineType outdir =
          joinNl (ps.map (fun platform =>
            match getQueryEngineFilename engineType platform with
            | some g => buildNFTAnnot esm g outdir
            | none => "")) ++ buildNFTAnnot esm ("schema.prisma") outdir := by
        intro esm; simp [buildNFTAnnots, hnet]
      refine ⟨?_, ?_⟩
      · rw [hout true]
        exact listSub_files_output true engineType outdir ps hp f hfeq
      · rw [hout false]
        exact listSub_files_output false engineType outdir ps hp f hfeq

theorem esm_flag_references_same_files_witness :
    annotatedFiles noEnv false (some ["debian-openssl-1.1.x"]) true
      ClientEngineType.Library =
      annotatedFiles noEnv false (some ["debian-openssl-1.1.x"]) false
        ClientEngineType.Library ∧
    (SubstrOf ("schema.prisma") (buildNFTAnnots noEnv false (some ["debian-openssl-1.1.x"])
        true ClientEngineType.Library ("out")) ∧
      SubstrOf ("schema.prisma") (buildNFTAnnots noEnv false (some ["debian-openssl-1.1.x"])
        false ClientEngineType.Library ("out"))) := by
  have h := esm_flag_references_same_files noEnv false (some ["debian-openssl-1.1.x"])
    ClientEngineType.Library ("out")
  exact ⟨h.1, h.2 ["debian-openssl-1.1.x"] rfl (by decide) "schema.prisma" (by decide)⟩

end Prisma
